import Mathlib

/-!
Verification development for the pyESM model compiler.

The repository ships the declarative schema corpus (set declarations and
variable declarations in YAML) that drives the compiler; the compiler
components themselves (Set Registry, Problem Partitioner, Coordinate &
Matrix Builder, Solve Driver, Multi-Stage Orchestrator) are specified in
spec.md. Each such component is embedded below as an executable Lean
definition modelled from the spec, and the schema fixtures relevant to the
properties are transcribed as concrete data.
-/

namespace PyESM

/-- Association-list lookup keyed by decidable equality; the first binding
for a key wins, as in an insertion-ordered map with shadowing. -/
def alookup {α β : Type} [DecidableEq α] : List (α × β) → α → Option β
  | [], _ => none
  | (k, v) :: rest, a => if k = a then some v else alookup rest a

/-- Modelled from the spec (section 3, Set): a member of a set has a name,
zero or more category-filter values (axis, value), and an optional
aggregation target naming a member of the aggregated set. -/
structure Member where
  name : String
  cats : List (String × String)
  agg : Option String
  deriving Repr, DecidableEq

/-- Modelled from the spec (section 3, Set; section 6 set schema): a set
declaration carries a symbol, the split_problem flag and the ordered member
list. The member rows themselves live in the external store; here they are
part of the declaration. -/
structure SetDecl where
  symbol : String
  splitProblem : Bool
  members : List Member
  deriving Repr, DecidableEq

/-- Look a set up by symbol in the registry (spec section 4.1,
resolve / UnknownSetError boundary). -/
def findSet (reg : List SetDecl) (sym : String) : Option SetDecl :=
  reg.find? (fun s => s.symbol == sym)

/-- Modelled from the spec (design note, section 9): a filter value in a
sub-variable declaration is either one value or a set of values. -/
inductive FilterVal where
  | one (v : String)
  | many (vs : List String)
  deriving Repr, DecidableEq

/-- A category value matches a filter value by membership inclusion
(spec section 9, open question resolved uniformly). -/
def valMatches : FilterVal → String → Bool
  | .one v, x => x == v
  | .many vs, x => vs.contains x

/-- The category value a member carries on a filter axis. -/
def catValue (m : Member) (axis : String) : Option String :=
  alookup m.cats axis

/-- A member matches a filter map when every filtered axis carries a
category value included in the allowed values. -/
def memberMatches (fs : List (String × FilterVal)) (m : Member) : Bool :=
  fs.all (fun af =>
    match catValue m af.1 with
    | some x => valMatches af.2 x
    | none => false)

/-- Modelled from the spec (section 4.1): filterMembers returns the ordered
subset of the declared members matching the filters, declared order
preserved. -/
def filterMembers (s : SetDecl) (fs : List (String × FilterVal)) : List Member :=
  s.members.filter (memberMatches fs)

/-- A problem key: one member name per split_problem set (spec section 3). -/
abbrev ProblemKey := List String

/-- Ordered cartesian product of the member names of a list of sets: the
first set varies slowest (declaration order), members in declared order.
Modelled from the spec (section 4.3). -/
def cartesian : List SetDecl → List (List String)
  | [] => [[]]
  | s :: rest =>
      (s.members.map (fun m => m.name)).flatMap
        (fun n => (cartesian rest).map (fun k => n :: k))

/-- Modelled from the spec (section 4.3, Problem Partitioner, absent from
the shipped sources): the ordered sequence of problem keys, the cartesian
product of the members of every set flagged split_problem, in
set-declaration order then member order; one empty key when no set is
flagged. -/
def partitions (sets : List SetDecl) : List (List String) :=
  cartesian (sets.filter (fun s => s.splitProblem))

/-- Rank of a member name inside a set declaration: its declared position. -/
def memberRank (s : SetDecl) (n : String) : Nat :=
  (s.members.map (fun m => m.name)).indexOf n

/-- The rank vector of a problem key against the split sets it draws from. -/
def keyRanks (splits : List SetDecl) (k : List String) : List Nat :=
  (splits.zip k).map (fun p => memberRank p.1 p.2)

/-- Set-declaration-order-then-member-order comparison of problem keys. -/
def keyLt (splits : List SetDecl) (k1 k2 : List String) : Prop :=
  List.Lex (· < ·) (keyRanks splits k1) (keyRanks splits k2)

/-- Entry of a matrix held as a list of rows, defaulting to 0 out of
bounds. -/
def entry (m : List (List Nat)) (i j : Nat) : Nat :=
  (((m.get? i).getD []).get? j).getD 0

/-- Modelled from the spec (section 3, Constant Generator, identity_rcot):
rows bound to the aggregated set, columns to the set carrying the
aggregation link; nonzero at (i, j) iff column member j aggregates to row
member i. -/
def identityRcot (rowMembers colMembers : List Member) : List (List Nat) :=
  rowMembers.map (fun r =>
    colMembers.map (fun c => if c.agg = some r.name then 1 else 0))

/-- Modelled from the spec (section 3, Constant Generator,
lower_triangular): square lower-triangular ones matrix sized by the bound
set. -/
def lowerTriangular (n : Nat) : List (List Nat) :=
  (List.range n).map (fun i =>
    (List.range n).map (fun j => if j ≤ i then 1 else 0))

/-- Modelled from the spec (section 3, Constant Generator, sum_vector):
row vector of ones sized by the bound set. -/
def sumVector (members : List Member) : List (List Nat) :=
  [members.map (fun _ => 1)]

/-- Number of entries equal to 1 in a matrix held as a list of rows. -/
def onesCount (m : List (List Nat)) : Nat :=
  (m.map (fun r => r.count 1)).sum

/-- A numeric container cell: none is the all-missing sentinel, distinct
from zero (spec section 4.4). -/
abbrev Cell := Option Rat

/-- A 2-D numeric container, a list of rows of cells. -/
abbrev Container := List (List Cell)

/-- The all-missing container of a given shape (spec section 4.4: an
exogenous or endogenous container starts as all-missing sentinel). -/
def missingContainer (r c : Nat) : Container :=
  List.replicate r (List.replicate c none)

/-- One dimension binding of a sub-variable: a set symbol with optional
category filters (spec section 6, variables_info rows and cols entries). -/
structure DimSpec where
  set : String
  filters : List (String × FilterVal)
  deriving Repr, DecidableEq

/-- A sub-variable in the keyed schema form: optional rows, cols and intra
entries, each a set with filters (spec section 6). A sub-variable missing
both row and column bindings is a per-problem scalar. -/
structure SubVarKeyed where
  rows : Option DimSpec
  cols : Option DimSpec
  intra : Option DimSpec
  deriving Repr, DecidableEq

/-- Errors raised while resolving and building a sub-variable container
(spec sections 4.1, 4.4, 7). -/
inductive BuildError where
  | unknownSet (sym : String)
  | unresolvedDimension (subVar : String) (key : ProblemKey)
  deriving Repr, DecidableEq

/-- Modelled from the spec (section 4.2 Schema Resolver, absent from the
shipped sources): resolve one optional dimension binding to its member
list after filters; an unbound dimension is the empty list (scalar). -/
def resolveDimSpec (reg : List SetDecl) : Option DimSpec → Except BuildError (List Member)
  | none => .ok []
  | some ds =>
      match findSet reg ds.set with
      | none => .error (.unknownSet ds.set)
      | some s => .ok (filterMembers s ds.filters)

/-- Modelled from the spec (section 4.4 Coordinate and Matrix Builder,
absent from the shipped sources): resolve one dimension of a sub-variable
for the build; a bound dimension whose filtered member list is empty fails
with UnresolvedDimensionError carrying the offending sub-variable and
problem key. -/
def resolveBound (reg : List SetDecl) (svId : String) (key : ProblemKey) :
    Option DimSpec → Except BuildError (List Member)
  | none => .ok []
  | some ds =>
      match findSet reg ds.set with
      | none => .error (.unknownSet ds.set)
      | some s =>
          match filterMembers s ds.filters with
          | [] => .error (.unresolvedDimension svId key)
          | ms => .ok ms

/-- Modelled from the spec (section 4.4): build the backing container of a
sub-variable for one problem key, shaped (resolved rows, resolved cols),
or (1, 1) on an unbound dimension, starting all-missing. -/
def buildMatrix (reg : List SetDecl) (svId : String) (sv : SubVarKeyed)
    (key : ProblemKey) : Except BuildError Container := do
  let rs ← resolveBound reg svId key sv.rows
  let cs ← resolveBound reg svId key sv.cols
  .ok (missingContainer (max rs.length 1) (max cs.length 1))

/-- Modelled from the spec (sections 5 and 7): each (sub-variable, problem
key) build item is processed independently of its siblings. -/
def processAll (reg : List SetDecl)
    (items : List (String × SubVarKeyed × ProblemKey)) :
    List (Except BuildError Container) :=
  items.map (fun it => buildMatrix reg it.1 it.2.1 it.2.2)

/-- Modelled from the spec (section 4.4 and design note, section 9): the
arena of containers indexed by (subVariableId, problemKey); the index
yields a stable handle into the slot store rather than a copy. -/
structure Arena where
  store : List Container
  index : List ((String × ProblemKey) × Nat)
  deriving Repr, DecidableEq

/-- Modelled from the spec (section 4.4): request the container of a
(subVariableId, problemKey); an already-allocated pair yields its existing
handle and leaves the arena untouched, a fresh pair allocates a new slot. -/
def getOrAlloc (a : Arena) (k : String × ProblemKey) (fresh : Container) :
    Nat × Arena :=
  match alookup a.index k with
  | some h => (h, a)
  | none => (a.store.length, ⟨a.store ++ [fresh], (k, a.store.length) :: a.index⟩)

/-- Read the container behind a handle. -/
def readSlot (a : Arena) (h : Nat) : Option Container :=
  a.store.get? h

/-- Write a container through a handle (solver output scatter target). -/
def writeSlot (a : Arena) (h : Nat) (m : Container) : Arena :=
  ⟨a.store.set h m, a.index⟩

/-- Solver status reported by the external solver (spec section 4.6). -/
inductive SolveStatus where
  | optimal
  | infeasible
  | unbounded
  | error
  deriving Repr, DecidableEq

/-- Result of one solve call: status and the primal value map. -/
structure SolveResult where
  status : SolveStatus
  values : List (String × Rat)
  deriving Repr, DecidableEq

/-- Feasibility of a one-variable interval problem: some value lies
between the lower and the upper bound. -/
def feasibleInterval (lo hi : Rat) : Prop :=
  ∃ x : Rat, lo ≤ x ∧ x ≤ hi

/-- Modelled from the spec (section 4.6, solver boundary for the 1-by-1
scenario of section 8): the black-box solver on a single bounded variable
reports optimal when the interval is nonempty and infeasible otherwise. -/
def solveInterval (lo hi : Rat) : SolveStatus :=
  if lo ≤ hi then .optimal else .infeasible

/-- Scatter the primal value of one decision variable into its container
cell (spec section 4.6, write-back on optimal). -/
def scatterCell (m : Container) (i j : Nat) (v : Rat) : Container :=
  m.set i ((m.get? i).getD [] |>.set j (some v))

/-- Modelled from the spec (section 4.6 Solve Driver, absent from the
shipped sources): apply a solve result to the container of the problem
key; only an optimal result scatters values, every other status leaves the
container untouched. -/
def applySolve (res : SolveResult)
    (scatter : Container → List (String × Rat) → Container)
    (m : Container) : Container :=
  match res.status with
  | .optimal => scatter m res.values
  | _ => m

/-- Variable type of a table (spec section 3, Variable Table). -/
inductive VarType where
  | exogenous
  | endogenous
  | constant
  deriving Repr, DecidableEq

/-- A variable with a per-stage type mapping (spec section 3; the shipped
multi-stage fixtures declare such mappings, for example x with stage 1
endogenous and stage 2 exogenous). -/
structure StageVar where
  id : String
  stageTypes : List (Nat × VarType)
  deriving Repr, DecidableEq

/-- The declared type of a variable at a stage. -/
def typeAt (v : StageVar) (k : Nat) : Option VarType :=
  alookup v.stageTypes k

/-- A hand-off variable at stage k: endogenous at k and exogenous at k+1
(spec sections 3 and 4.7). -/
def isHandOffVar (v : StageVar) (k : Nat) : Bool :=
  typeAt v k == some .endogenous && typeAt v (k + 1) == some .exogenous

/-- Orchestrator phase over stage indices (spec section 4.7). -/
inductive Phase where
  | pending (k : Nat)
  | compiled (k : Nat)
  | solvedPhase (k : Nat)
  | handedOff (k : Nat)
  | allSolved
  deriving Repr, DecidableEq

/-- A stage-indexed container store: (stage, variable id, problem key)
maps to a container. -/
abbrev StageStore := List ((Nat × String × ProblemKey) × Container)

/-- Orchestrator state: current phase, the solved containers and the
exogenous containers, both stage-indexed. -/
structure OrchState where
  phase : Phase
  solved : StageStore
  exo : StageStore
  deriving Repr, DecidableEq

/-- The (variable id, problem key) pairs a stage hands off: every hand-off
variable crossed with every problem key. -/
def handOffPairs (vars : List StageVar) (keys : List ProblemKey) (k : Nat) :
    List (String × ProblemKey) :=
  (vars.filter (fun v => isHandOffVar v k)).flatMap
    (fun v => keys.map (fun key => (v.id, key)))

/-- Copy the stage-k solved container of each listed (variable, key) pair
into the stage-(k+1) exogenous store; fails when a pair was never solved
(spec section 4.7: a stage fails fatally on a missing hand-off solve). -/
def copyPairs (k : Nat) (solved : StageStore) :
    List (String × ProblemKey) → StageStore → Option StageStore
  | [], exo => some exo
  | (v, key) :: rest, exo =>
      match alookup solved (k, v, key) with
      | none => none
      | some c => copyPairs k solved rest (((k + 1, v, key), c) :: exo)

/-- Modelled from the spec (section 4.7 Multi-Stage Orchestrator, absent
from the shipped sources): the HandedOff(k) to Pending(k+1) transition
copies every hand-off variable of stage k, for every problem key, from its
solved container into the next stage exogenous store. -/
def handOffTransition (vars : List StageVar) (keys : List ProblemKey)
    (k : Nat) (st : OrchState) : Option OrchState :=
  if st.phase = .handedOff k then
    match copyPairs k st.solved (handOffPairs vars keys k) st.exo with
    | none => none
    | some exoNext => some ⟨.pending (k + 1), st.solved, exoNext⟩
  else none

/-- Role a coordinate set plays for a sub-variable in the per-set schema
form (the dim entry of the shipped fixtures). -/
inductive DimRole where
  | rows
  | cols
  | intra
  deriving Repr, DecidableEq

/-- One entry of the per-set schema form: a coordinate set name carrying
its dim role and optional filters, as in the shipped dim-form fixtures. -/
structure SetBinding where
  set : String
  dim : DimRole
  filters : List (String × FilterVal)
  deriving Repr, DecidableEq

/-- A resolved sub-variable: ordered row members, column members and
intra-domain members (spec section 4.2). -/
structure ResolvedSubVariable where
  rowMembers : List Member
  colMembers : List Member
  intraMembers : List Member
  deriving Repr, DecidableEq

/-- Modelled from the spec (section 4.2): resolve a keyed-form
sub-variable to its resolved member lists, rows then cols then intra. -/
def resolveKeyed (reg : List SetDecl) (sv : SubVarKeyed) :
    Except BuildError ResolvedSubVariable := do
  let rs ← resolveDimSpec reg sv.rows
  let cs ← resolveDimSpec reg sv.cols
  let ims ← resolveDimSpec reg sv.intra
  .ok ⟨rs, cs, ims⟩

/-- Modelled from the spec (section 4.2, applied to the per-set schema
form of the shipped fixtures): resolve the binding list directly, later
list entries first, the earliest binding of a role winning. -/
def resolveDimForm (reg : List SetDecl) :
    List SetBinding → Except BuildError ResolvedSubVariable
  | [] => .ok ⟨[], [], []⟩
  | b :: rest => do
      let r ← resolveDimForm reg rest
      match findSet reg b.set with
      | none => .error (.unknownSet b.set)
      | some s =>
          let ms := filterMembers s b.filters
          match b.dim with
          | .rows => .ok { r with rowMembers := ms }
          | .cols => .ok { r with colMembers := ms }
          | .intra => .ok { r with intraMembers := ms }

/-- The earliest binding of a role in a per-set form declaration, as a
keyed-form dimension entry. -/
def findRole : List SetBinding → DimRole → Option DimSpec
  | [], _ => none
  | b :: rest, r => if b.dim = r then some ⟨b.set, b.filters⟩ else findRole rest r

/-- Translation of a per-set form declaration into the keyed form. -/
def dimFormToKeyed (bs : List SetBinding) : SubVarKeyed :=
  ⟨findRole bs .rows, findRole bs .cols, findRole bs .intra⟩

/-- The X_max_pub_strike sub-variable in the keyed schema form, transcribed
from the shipped fixture: rows bind days filtered strikes, cols bind techs
filtered public ownership. -/
def xMaxKeyed : SubVarKeyed :=
  { rows := some ⟨"days", [("strikes", .one "strikes")]⟩
    cols := some ⟨"techs", [("ownership", .one "public")]⟩
    intra := none }

/-- The X_max_pub_strike sub-variable in the per-set schema form,
transcribed from the shipped 0b_year_filters fixture: days carries dim rows
with the strikes filter, techs carries dim cols with the public filter. -/
def xMaxDimForm : List SetBinding :=
  [⟨"days", .rows, [("strikes", .one "strikes")]⟩,
   ⟨"techs", .cols, [("ownership", .one "public")]⟩]

/-- A sample registry instantiating the days and techs sets the
X_max_pub_strike fixture binds (member rows live in the external store and
are instantiated here with the categories the fixture filters on). -/
def sampleReg : List SetDecl :=
  [⟨"days", false,
     [⟨"mon", [("strikes", "strikes"), ("we", "wd")], none⟩,
      ⟨"sat", [("strikes", "none"), ("we", "we")], none⟩,
      ⟨"sun", [("strikes", "strikes"), ("we", "we")], none⟩]⟩,
   ⟨"techs", false,
     [⟨"pv", [("ownership", "public")], none⟩,
      ⟨"ccgt", [("ownership", "private")], none⟩,
      ⟨"wind", [("ownership", "public")], none⟩]⟩]

/-- The split_problem set declarations of the shipped multiple-problems
fixture: scenarios and uncertainty are both flagged split_problem (member
rows instantiated here). -/
def splitFixtureSets : List SetDecl :=
  [⟨"scenarios", true, [⟨"s1", [], none⟩, ⟨"s2", [], none⟩]⟩,
   ⟨"uncertainty", true, [⟨"u1", [], none⟩, ⟨"u2", [], none⟩]⟩,
   ⟨"products", false, [⟨"p1", [], none⟩]⟩]

/-- The hand-off variable x of the shipped integrated fixture: endogenous
at stage 1, exogenous at stage 2. -/
def xHandOff : StageVar :=
  ⟨"x", [(1, .endogenous), (2, .exogenous)]⟩

/-- An aggregated pair of sets modelled on the 1a_emissions fixture: techs
carries an aggregation link into techs_agg (members instantiated with a1
and a2 both aggregating to b1). -/
def techsAggMembers : List Member :=
  [⟨"b1", [], none⟩]

/-- Members of the linked set carrying the aggregation targets. -/
def techsMembers : List Member :=
  [⟨"a1", [], some "b1"⟩, ⟨"a2", [], some "b1"⟩]

/-- A registry with a flow set carrying a time resolution category on
which the constants fixture filters Q_h; no member is Hourly dispatched,
so the filtered member list is empty. -/
def emptyFilterReg : List SetDecl :=
  [⟨"flows", false,
     [⟨"gas", [("0", "Yearly dispatched")], none⟩,
      ⟨"oil", [("0", "Yearly dispatched")], none⟩]⟩]

/-- The Q_h sub-variable of the shipped constants fixture: cols bind flows
filtered to the Hourly dispatched category. -/
def qHourly : SubVarKeyed :=
  { rows := none
    cols := some ⟨"flows", [("0", .one "Hourly dispatched")]⟩
    intra := none }

/-- A one-stage-solved orchestrator state for the integrated fixture: the
hand-off variable x is solved at stage 1 for the single problem key. -/
def demoState : OrchState :=
  ⟨.handedOff 1, [((1, "x", ["s1"]), [[some 5]])], []⟩

/-- The state the orchestrator reaches from demoState: pending stage 2,
with the stage-1 solve of x copied into the stage-2 exogenous store. -/
def demoStateNext : OrchState :=
  ⟨.pending 2, [((1, "x", ["s1"]), [[some 5]])], [((2, "x", ["s1"]), [[some 5]])]⟩

/-- Well-formed arena: every indexed handle points into the slot store. -/
def arenaWF (a : Arena) : Prop :=
  ∀ p ∈ a.index, p.2 < a.store.length

lemma entry_map_map {α β : Type} (rows : List α) (cols : List β)
    (f : α → β → Nat) (i j : Nat) (hi : i < rows.length) (hj : j < cols.length) :
    entry (rows.map (fun r => cols.map (fun c => f r c))) i j
      = f (rows.get ⟨i, hi⟩) (cols.get ⟨j, hj⟩) := by
  simp [entry, List.get?_eq_getElem?, List.getElem?_map,
    List.getElem?_eq_getElem hi, List.getElem?_eq_getElem hj, List.get_eq_getElem]

lemma count_one_row_all (i n : Nat) (h : n ≤ i) :
    ((List.range n).map (fun j => if j ≤ i then (1 : Nat) else 0)).count 1 = n := by
  induction n with
  | zero => simp
  | succ n ih =>
      rw [List.range_succ, List.map_append, List.count_append]
      rw [ih (Nat.le_of_succ_le h)]
      simp [Nat.le_of_succ_le h]

lemma count_one_row (i n : Nat) (h : i < n) :
    ((List.range n).map (fun j => if j ≤ i then (1 : Nat) else 0)).count 1 = i + 1 := by
  induction n with
  | zero => omega
  | succ n ih =>
      rw [List.range_succ, List.map_append, List.count_append]
      by_cases hn : i < n
      · rw [ih hn]
        have : ¬ n ≤ i := by omega
        simp [this]
      · have hin : i = n := by omega
        subst hin
        rw [count_one_row_all i i (Nat.le_refl i)]
        simp

lemma gauss_sum (n : Nat) :
    ((List.range n).map (fun i => i + 1)).sum * 2 = n * (n + 1) := by
  induction n with
  | zero => simp
  | succ n ih =>
      rw [List.range_succ, List.map_append, List.sum_append]
      simp only [List.map_cons, List.map_nil, List.sum_cons, List.sum_nil]
      rw [Nat.add_mul, ih]
      ring

/-- C2: for an identity_rcot constant over rows bound to the aggregated set
and columns bound to the set carrying the aggregation link, the generated
matrix has shape (rows, cols), entry 1 at (i, j) exactly when column
member j aggregates to row member i, and entry 0 everywhere else. -/
theorem identityRcot_entry_iff (rows cols : List Member) (i j : Nat)
    (hi : i < rows.length) (hj : j < cols.length) :
    ((identityRcot rows cols).length = rows.length)
    ∧ (∀ r ∈ identityRcot rows cols, r.length = cols.length)
    ∧ (entry (identityRcot rows cols) i j = 1
        ↔ (cols.get ⟨j, hj⟩).agg = some ((rows.get ⟨i, hi⟩).name))
    ∧ (entry (identityRcot rows cols) i j = 0
        ↔ (cols.get ⟨j, hj⟩).agg ≠ some ((rows.get ⟨i, hi⟩).name)) := by
  refine ⟨by simp [identityRcot], ?_, ?_, ?_⟩
  · intro r hr
    simp only [identityRcot, List.mem_map] at hr
    obtain ⟨m, _, rfl⟩ := hr
    simp
  · rw [identityRcot, entry_map_map rows cols _ i j hi hj]
    by_cases h : (cols.get ⟨j, hj⟩).agg = some ((rows.get ⟨i, hi⟩).name) <;>
      simp [h]
  · rw [identityRcot, entry_map_map rows cols _ i j hi hj]
    by_cases h : (cols.get ⟨j, hj⟩).agg = some ((rows.get ⟨i, hi⟩).name) <;>
      simp [h]

/-- Witness for C2 at the aggregation of the 1a_emissions shape: a1 and a2
both aggregate to b1, so the matrix over rows [b1] and cols [a1, a2] holds
a 1 at (0, 0) and at (0, 1). -/
theorem identityRcot_entry_iff_witness :
    0 < techsAggMembers.length ∧ 1 < techsMembers.length
    ∧ entry (identityRcot techsAggMembers techsMembers) 0 0 = 1
    ∧ entry (identityRcot techsAggMembers techsMembers) 0 1 = 1 := by
  refine ⟨by decide, by decide, ?_, ?_⟩
  · exact (identityRcot_entry_iff techsAggMembers techsMembers 0 0
      (by decide) (by decide)).2.2.1.mpr (by decide)
  · exact (identityRcot_entry_iff techsAggMembers techsMembers 0 1
      (by decide) (by decide)).2.2.1.mpr (by decide)

/-- C4: the lower_triangular constant over a bound set of size n is the
n-by-n matrix with entry 1 exactly at the positions (i, j) with j at most
i and 0 elsewhere, and it holds exactly n(n+1)/2 ones. -/
theorem lowerTriangular_spec (n i j : Nat) (hi : i < n) (hj : j < n) :
    ((lowerTriangular n).length = n)
    ∧ (∀ r ∈ lowerTriangular n, r.length = n)
    ∧ (entry (lowerTriangular n) i j = if j ≤ i then 1 else 0)
    ∧ onesCount (lowerTriangular n) = n * (n + 1) / 2 := by
  refine ⟨by simp [lowerTriangular], ?_, ?_, ?_⟩
  · intro r hr
    simp only [lowerTriangular, List.mem_map] at hr
    obtain ⟨m, _, rfl⟩ := hr
    simp
  · have hi' : i < (List.range n).length := by simpa using hi
    have hj' : j < (List.range n).length := by simpa using hj
    rw [lowerTriangular, entry_map_map (List.range n) (List.range n) _ i j hi' hj']
    simp
  · rw [onesCount, lowerTriangular, List.map_map]
    have hcongr :
        (List.range n).map
            ((fun r => r.count 1) ∘ fun i =>
              (List.range n).map (fun j => if j ≤ i then (1 : Nat) else 0))
          = (List.range n).map (fun i => i + 1) := by
      apply List.map_congr_left
      intro a ha
      exact count_one_row a n (List.mem_range.mp ha)
    rw [hcongr]
    have h2 := gauss_sum n
    omega

/-- Witness for C4 at n = 3: shape 3 by 3, a zero above the diagonal, and
exactly six ones. -/
theorem lowerTriangular_spec_witness :
    (lowerTriangular 3).length = 3
    ∧ entry (lowerTriangular 3) 0 1 = 0
    ∧ onesCount (lowerTriangular 3) = 3 * (3 + 1) / 2 := by
  have h := lowerTriangular_spec 3 0 1 (by decide) (by decide)
  refine ⟨h.1, ?_, h.2.2.2⟩
  rw [h.2.2.1]
  decide

/-- C8: the sum_vector constant over a bound set of size N is a row vector
of ones: shape (1, N) with every entry equal to 1. -/
theorem sumVector_spec (ms : List Member) (j : Nat) (hj : j < ms.length) :
    (sumVector ms).length = 1
    ∧ (∀ r ∈ sumVector ms, r.length = ms.length)
    ∧ entry (sumVector ms) 0 j = 1 := by
  refine ⟨rfl, by simp [sumVector], ?_⟩
  simp [sumVector, entry, List.get?_eq_getElem?, List.getElem?_map,
    List.getElem?_eq_getElem hj, List.getElem?_replicate, hj]

/-- Witness for C8 over the two-member techs fixture instance. -/
theorem sumVector_spec_witness :
    1 < techsMembers.length ∧ entry (sumVector techsMembers) 0 1 = 1 :=
  ⟨by decide, (sumVector_spec techsMembers 1 (by decide)).2.2⟩

/-- C9: the single-value filter form and the one-element set-valued filter
form select the same ordered member subset, and the selection preserves
the declared member order. -/
theorem filterMembers_one_eq_many (s : SetDecl) (axis v : String) :
    filterMembers s [(axis, .one v)] = filterMembers s [(axis, .many [v])]
    ∧ (filterMembers s [(axis, .one v)]).Sublist s.members := by
  constructor
  · apply List.filter_congr
    intro m _
    simp only [memberMatches, List.all_cons, List.all_nil, Bool.and_true]
    cases h : catValue m axis with
    | none => rfl
    | some x =>
        simp only [valMatches, List.contains, List.any_cons, List.any_nil,
          Bool.or_false]
        by_cases hxv : x = v
        · subst hxv
          simp
        · simp [hxv, Ne.symm hxv]
  · exact List.filter_sublist _

lemma alookup_mem {α β : Type} [DecidableEq α] (l : List (α × β)) (a : α)
    (v : β) (h : alookup l a = some v) : (a, v) ∈ l := by
  induction l with
  | nil => simp [alookup] at h
  | cons p rest ih =>
      obtain ⟨p1, p2⟩ := p
      rw [alookup] at h
      by_cases hp : p1 = a
      · subst hp
        rw [if_pos rfl] at h
        cases h
        exact List.mem_cons_self _ _
      · rw [if_neg hp] at h
        exact List.mem_cons_of_mem _ (ih h)

lemma get?_set_self {α : Type} (l : List α) (n : Nat) (a : α)
    (h : n < l.length) : (l.set n a).get? n = some a := by
  simp [List.get?_eq_getElem?, List.getElem?_set_self, h]

/-- C6: requesting the container of an already-requested (subVariableId,
problemKey) yields the same handle and leaves the arena untouched, both
before and after the container behind the handle is written, and re-reading
the written handle returns exactly the written values. -/
theorem matrix_handle_stable (a : Arena) (k : String × ProblemKey)
    (fresh fresh2 : Container) (m : Container) (hw : arenaWF a) :
    (getOrAlloc (getOrAlloc a k fresh).2 k fresh2
        = ((getOrAlloc a k fresh).1, (getOrAlloc a k fresh).2))
    ∧ (getOrAlloc (writeSlot (getOrAlloc a k fresh).2 (getOrAlloc a k fresh).1 m) k fresh2
        = ((getOrAlloc a k fresh).1,
           writeSlot (getOrAlloc a k fresh).2 (getOrAlloc a k fresh).1 m))
    ∧ readSlot (writeSlot (getOrAlloc a k fresh).2 (getOrAlloc a k fresh).1 m)
        (getOrAlloc a k fresh).1 = some m := by
  have hlook : alookup (getOrAlloc a k fresh).2.index k = some (getOrAlloc a k fresh).1 := by
    rw [getOrAlloc]
    cases h : alookup a.index k with
    | some h0 => simpa using h
    | none => simp [alookup]
  have hlt : (getOrAlloc a k fresh).1 < (getOrAlloc a k fresh).2.store.length := by
    rw [getOrAlloc]
    cases h : alookup a.index k with
    | some h0 =>
        simpa using hw (k, h0) (alookup_mem a.index k h0 h)
    | none => simp
  refine ⟨?_, ?_, ?_⟩
  · rw [getOrAlloc, hlook]
  · rw [getOrAlloc]
    have : alookup (writeSlot (getOrAlloc a k fresh).2 (getOrAlloc a k fresh).1 m).index k
        = some (getOrAlloc a k fresh).1 := hlook
    rw [this]
  · rw [readSlot, writeSlot]
    exact get?_set_self _ _ _ hlt

/-- Witness for C6: a fresh arena, one allocation, one write, then the
re-request returns the original handle and the written container. -/
theorem matrix_handle_stable_witness :
    (getOrAlloc (writeSlot (getOrAlloc ⟨[], []⟩ ("X", ["s1"]) (missingContainer 1 1)).2
        (getOrAlloc ⟨[], []⟩ ("X", ["s1"]) (missingContainer 1 1)).1 [[some 7]])
        ("X", ["s1"]) (missingContainer 1 1)).1
      = (getOrAlloc ⟨[], []⟩ ("X", ["s1"]) (missingContainer 1 1)).1
    ∧ readSlot (writeSlot (getOrAlloc ⟨[], []⟩ ("X", ["s1"]) (missingContainer 1 1)).2
        (getOrAlloc ⟨[], []⟩ ("X", ["s1"]) (missingContainer 1 1)).1 [[some 7]])
        (getOrAlloc ⟨[], []⟩ ("X", ["s1"]) (missingContainer 1 1)).1 = some [[some 7]] := by
  have h := matrix_handle_stable ⟨[], []⟩ ("X", ["s1"])
    (missingContainer 1 1) (missingContainer 1 1) [[some 7]]
    (by intro p hp; simp at hp)
  exact ⟨by rw [h.2.1], h.2.2⟩

/-- C7: a bound dimension whose filtered member list is empty makes the
container build fail with UnresolvedDimensionError carrying the offending
sub-variable and problem key — whether the empty dimension is the row or
the column one — and every (sub-variable, problem key) build item is
processed independently of its siblings. -/
theorem buildMatrix_unresolved (reg : List SetDecl) (svId : String)
    (sv : SubVarKeyed) (key : ProblemKey) (ds : DimSpec) (s : SetDecl)
    (hs : findSet reg ds.set = some s)
    (hempty : filterMembers s ds.filters = []) :
    (resolveBound reg svId key (some ds) = .error (.unresolvedDimension svId key))
    ∧ (sv.rows = some ds →
        buildMatrix reg svId sv key = .error (.unresolvedDimension svId key))
    ∧ (∀ rs, resolveBound reg svId key sv.rows = .ok rs → sv.cols = some ds →
        buildMatrix reg svId sv key = .error (.unresolvedDimension svId key))
    ∧ (∀ items : List (String × SubVarKeyed × ProblemKey), ∀ i : Nat,
        ∀ hi : i < items.length,
          (processAll reg items).get ⟨i, by simpa [processAll] using hi⟩
            = buildMatrix reg (items.get ⟨i, hi⟩).1 (items.get ⟨i, hi⟩).2.1
                (items.get ⟨i, hi⟩).2.2) := by
  have hres : resolveBound reg svId key (some ds)
      = .error (.unresolvedDimension svId key) := by
    simp [resolveBound, hs, hempty]
  refine ⟨hres, ?_, ?_, ?_⟩
  · intro hrow
    rw [buildMatrix, hrow, hres]
    rfl
  · intro rs hrs hcol
    rw [buildMatrix, hrs, hcol, hres]
    rfl
  · intro items i hi
    simp [processAll, List.get_eq_getElem]

/-- Witness for C7 at the Q_h fixture: filtering flows to the Hourly
dispatched category yields no member, so the build of Q_h fails with the
unresolved-dimension error for its problem key while a sibling item over
the unfiltered flows set still builds. -/
theorem buildMatrix_unresolved_witness :
    buildMatrix emptyFilterReg "Q_h" qHourly []
      = .error (.unresolvedDimension "Q_h" [])
    ∧ buildMatrix emptyFilterReg "Q"
        ⟨none, some ⟨"flows", []⟩, none⟩ [] = .ok (missingContainer 1 2) := by
  constructor
  · exact (buildMatrix_unresolved emptyFilterReg "Q_h" qHourly []
      ⟨"flows", [("0", .one "Hourly dispatched")]⟩
      ⟨"flows", false,
        [⟨"gas", [("0", "Yearly dispatched")], none⟩,
         ⟨"oil", [("0", "Yearly dispatched")], none⟩]⟩
      (by decide) (by decide)).2.2.1 [] rfl rfl
  · rfl

/-- C5: a solve returning infeasible or unbounded mutates no container;
for the one-by-one interval scenario with lower bound 1 and upper bound 0
the solver status is infeasible exactly because no feasible point exists,
and the endogenous container keeps its all-missing sentinel. -/
theorem solve_no_mutation (res : SolveResult)
    (scatter : Container → List (String × Rat) → Container) (m : Container)
    (h : res.status = .infeasible ∨ res.status = .unbounded) :
    applySolve res scatter m = m
    ∧ (∀ lo hi : Rat, solveInterval lo hi = .infeasible ↔ ¬ feasibleInterval lo hi)
    ∧ solveInterval 1 0 = .infeasible
    ∧ applySolve ⟨solveInterval 1 0, [("X", 0)]⟩ scatter (missingContainer 1 1)
        = missingContainer 1 1 := by
  have hiff : ∀ lo hi : Rat, solveInterval lo hi = .infeasible ↔ ¬ feasibleInterval lo hi := by
    intro lo hi
    simp only [solveInterval, feasibleInterval]
    by_cases hle : lo ≤ hi
    · rw [if_pos hle]
      constructor
      · intro hcontra
        cases hcontra
      · intro hnf
        exact absurd ⟨lo, le_refl lo, hle⟩ hnf
    · rw [if_neg hle]
      constructor
      · rintro - ⟨x, hx1, hx2⟩
        exact hle (le_trans hx1 hx2)
      · intro _
        rfl
  have hinf : solveInterval 1 0 = .infeasible := by
    rw [solveInterval, if_neg (by norm_num)]
  refine ⟨?_, hiff, hinf, ?_⟩
  · rcases h with h | h <;> · rw [applySolve, h]
  · rw [applySolve, hinf]

/-- Witness for C5: an infeasible result applied to the sentinel container
of the scenario leaves it untouched. -/
theorem solve_no_mutation_witness :
    applySolve ⟨.infeasible, []⟩ (fun m _ => m) (missingContainer 1 1)
      = missingContainer 1 1 :=
  (solve_no_mutation ⟨.infeasible, []⟩ (fun m _ => m) (missingContainer 1 1)
    (Or.inl rfl)).1

lemma mem_cartesian (splits : List SetDecl) (k : List String) :
    k ∈ cartesian splits
      ↔ List.Forall₂ (fun (s : SetDecl) n => n ∈ s.members.map (fun m => m.name))
          splits k := by
  induction splits generalizing k with
  | nil =>
      simp [cartesian, List.forall₂_nil_left_iff]
  | cons s rest ih =>
      constructor
      · intro hk
        rw [cartesian, List.mem_flatMap] at hk
        obtain ⟨n, hn, hk⟩ := hk
        rw [List.mem_map] at hk
        obtain ⟨k2, hk2, rfl⟩ := hk
        exact List.Forall₂.cons hn ((ih k2).mp hk2)
      · intro hk
        cases hk with
        | cons hn hrest =>
            rw [cartesian, List.mem_flatMap]
            exact ⟨_, hn, List.mem_map.mpr ⟨_, (ih _).mpr hrest, rfl⟩⟩

lemma lex_lt_irrefl (r : List Nat) : ¬ List.Lex (· < ·) r r := by
  induction r with
  | nil =>
      intro hcontra
      cases hcontra
  | cons a t ih =>
      intro hcontra
      cases hcontra with
      | cons h => exact ih h
      | rel h => exact lt_irrefl a h

lemma nodup_pairwise_indexOf (l : List String) (h : l.Nodup) :
    l.Pairwise (fun a b => l.indexOf a < l.indexOf b) := by
  rw [List.pairwise_iff_getElem]
  intro i j hi hj hij
  rw [List.indexOf_getElem h i hi, List.indexOf_getElem h j hj]
  exact hij

lemma cartesian_pairwise (splits : List SetDecl)
    (h : ∀ s ∈ splits, (s.members.map (fun m => m.name)).Nodup) :
    (cartesian splits).Pairwise (keyLt splits) := by
  induction splits with
  | nil => simp [cartesian]
  | cons s rest ih =>
      rw [show cartesian (s :: rest)
            = ((s.members.map (fun m => m.name)).map
                (fun n => (cartesian rest).map (fun k => n :: k))).flatten from rfl]
      rw [List.pairwise_flatten]
      constructor
      · intro l hl
        rw [List.mem_map] at hl
        obtain ⟨n, _, rfl⟩ := hl
        rw [List.pairwise_map]
        refine (ih (fun t ht => h t (List.mem_cons_of_mem s ht))).imp ?_
        intro k1 k2 hk
        exact List.Lex.cons hk
      · rw [List.pairwise_map]
        have hnames := nodup_pairwise_indexOf _ (h s (List.mem_cons_self s rest))
        refine hnames.imp ?_
        intro n1 n2 hlt x hx y hy
        rw [List.mem_map] at hx hy
        obtain ⟨k1, _, rfl⟩ := hx
        obtain ⟨k2, _, rfl⟩ := hy
        exact List.Lex.rel hlt

/-- C3: the partitioner enumerates exactly the selections of one member
name from each split_problem set (every combination produced, no
combination produced twice), in set-declaration order then member order;
with no split_problem set it yields the single whole-model key; and it is
deterministic across runs over identical declarations. -/
theorem partitions_correct (sets : List SetDecl)
    (h : ∀ s ∈ sets, s.splitProblem = true →
      (s.members.map (fun m => m.name)).Nodup) :
    (∀ k, k ∈ partitions sets ↔
        List.Forall₂ (fun (s : SetDecl) n => n ∈ s.members.map (fun m => m.name))
          (sets.filter (fun s => s.splitProblem)) k)
    ∧ (partitions sets).Pairwise (keyLt (sets.filter (fun s => s.splitProblem)))
    ∧ (partitions sets).Nodup
    ∧ (sets.filter (fun s => s.splitProblem) = [] → partitions sets = [[]])
    ∧ (∀ sets2 : List SetDecl, sets2 = sets → partitions sets2 = partitions sets) := by
  have hsplit : ∀ s ∈ sets.filter (fun s => s.splitProblem),
      (s.members.map (fun m => m.name)).Nodup := by
    intro s hs
    rw [List.mem_filter] at hs
    exact h s hs.1 hs.2
  have hpw := cartesian_pairwise _ hsplit
  refine ⟨fun k => mem_cartesian _ k, hpw, ?_, ?_, ?_⟩
  · refine hpw.imp ?_
    intro k1 k2 hk heq
    subst heq
    exact lex_lt_irrefl _ hk
  · intro hempty
    rw [partitions, hempty]
    rfl
  · intro sets2 heq
    rw [heq]

/-- Witness for C3 over the multiple-problems fixture sets: the four
(scenarios, uncertainty) combinations are pairwise distinct and the
combination (s1, u2) is produced. -/
theorem partitions_correct_witness :
    (partitions splitFixtureSets).Nodup
    ∧ ["s1", "u2"] ∈ partitions splitFixtureSets
    ∧ partitions splitFixtureSets
        = [["s1", "u1"], ["s1", "u2"], ["s2", "u1"], ["s2", "u2"]] := by
  have h := partitions_correct splitFixtureSets (by decide)
  refine ⟨h.2.2.1, (h.1 _).mpr ?_, by decide⟩
  exact List.Forall₂.cons (by decide) (List.Forall₂.cons (by decide) List.Forall₂.nil)

lemma copyPairs_frame (k : Nat) (solved : StageStore)
    (ps : List (String × ProblemKey)) (exo exoNext : StageStore)
    (hc : copyPairs k solved ps exo = some exoNext)
    (q : Nat × String × ProblemKey)
    (hq : ∀ p ∈ ps, (k + 1, p.1, p.2) ≠ q) :
    alookup exoNext q = alookup exo q := by
  induction ps generalizing exo with
  | nil =>
      rw [copyPairs] at hc
      cases hc
      rfl
  | cons p rest ih =>
      obtain ⟨v, key⟩ := p
      rw [copyPairs] at hc
      cases hsol : alookup solved (k, v, key) with
      | none => rw [hsol] at hc; cases hc
      | some c =>
          rw [hsol] at hc
          have hrest := ih _ hc (fun p hp => hq p (List.mem_cons_of_mem _ hp))
          rw [hrest, alookup,
            if_neg (hq (v, key) (List.mem_cons_self _ _))]

lemma copyPairs_lookup (k : Nat) (solved : StageStore)
    (ps : List (String × ProblemKey)) (exo exoNext : StageStore)
    (hnd : ps.Nodup) (hc : copyPairs k solved ps exo = some exoNext) :
    ∀ p ∈ ps, alookup exoNext (k + 1, p.1, p.2) = alookup solved (k, p.1, p.2)
      ∧ (alookup solved (k, p.1, p.2)).isSome = true := by
  induction ps generalizing exo with
  | nil =>
      intro p hp
      cases hp
  | cons hd rest ih =>
      obtain ⟨v, key⟩ := hd
      rw [copyPairs] at hc
      cases hsol : alookup solved (k, v, key) with
      | none => rw [hsol] at hc; cases hc
      | some c =>
          rw [hsol] at hc
          intro p hp
          rcases List.mem_cons.mp hp with rfl | hp
          · have hframe := copyPairs_frame k solved rest _ _ hc (k + 1, v, key)
              (fun p2 hp2 heq => by
                have hne : (v, key) ∉ rest := (List.nodup_cons.mp hnd).1
                have : p2 = (v, key) := by
                  obtain ⟨p21, p22⟩ := p2
                  simpa using heq
                exact hne (this ▸ hp2))
            rw [hframe, alookup, if_pos rfl, hsol]
            exact ⟨rfl, rfl⟩
          · exact ih _ (List.nodup_cons.mp hnd).2 hc p hp

lemma mem_handOffPairs (vars : List StageVar) (keys : List ProblemKey)
    (k : Nat) (v : StageVar) (key : ProblemKey)
    (hv : v ∈ vars) (hoff : isHandOffVar v k = true) (hkey : key ∈ keys) :
    (v.id, key) ∈ handOffPairs vars keys k := by
  rw [handOffPairs, List.mem_flatMap]
  exact ⟨v, List.mem_filter.mpr ⟨hv, hoff⟩, List.mem_map.mpr ⟨key, hkey, rfl⟩⟩

lemma handOffPairs_nodup (vars : List StageVar) (keys : List ProblemKey)
    (k : Nat) (hv : (vars.map (fun v => v.id)).Nodup) (hk : keys.Nodup) :
    (handOffPairs vars keys k).Nodup := by
  rw [handOffPairs, List.nodup_flatMap]
  constructor
  · intro v _
    exact hk.map (fun a b hab => by simpa using hab)
  · have hids : ((vars.filter (fun v => isHandOffVar v k)).map
        (fun v => v.id)).Nodup :=
      hv.sublist (((vars.filter_sublist (p := fun v => isHandOffVar v k))).map _)
    have hpw := (List.pairwise_map.mp hids)
    refine hpw.imp ?_
    intro v1 v2 hne
    intro x hx1 hx2
    rw [List.mem_map] at hx1 hx2
    obtain ⟨k1, _, rfl⟩ := hx1
    obtain ⟨k2, _, heq⟩ := hx2
    exact hne (by simpa using congrArg Prod.fst heq.symm)

/-- C1: the HandedOff(k) to Pending(k+1) transition copies every variable
typed endogenous at stage k and exogenous at stage k+1, for every problem
key, from its stage-k solved container into the stage-(k+1) exogenous
container: afterwards the next stage reads exactly the solved container,
dimension for dimension, and the transition only fires when every hand-off
pair was solved. -/
theorem handOff_copies (vars : List StageVar) (keys : List ProblemKey)
    (k : Nat) (st stNext : OrchState)
    (hv : (vars.map (fun v => v.id)).Nodup) (hk : keys.Nodup)
    (hstep : handOffTransition vars keys k st = some stNext) :
    stNext.phase = .pending (k + 1)
    ∧ stNext.solved = st.solved
    ∧ ∀ v ∈ vars, isHandOffVar v k = true → ∀ key ∈ keys,
        alookup stNext.exo (k + 1, v.id, key) = alookup st.solved (k, v.id, key)
        ∧ (alookup st.solved (k, v.id, key)).isSome = true := by
  rw [handOffTransition] at hstep
  by_cases hph : st.phase = .handedOff k
  · rw [if_pos hph] at hstep
    cases hcopy : copyPairs k st.solved (handOffPairs vars keys k) st.exo with
    | none => rw [hcopy] at hstep; cases hstep
    | some exoNext =>
        rw [hcopy] at hstep
        cases hstep
        refine ⟨rfl, rfl, ?_⟩
        intro v hvmem hoff key hkey
        exact copyPairs_lookup k st.solved _ _ _
          (handOffPairs_nodup vars keys k hv hk) hcopy (v.id, key)
          (mem_handOffPairs vars keys k v key hvmem hoff hkey)
  · rw [if_neg hph] at hstep
    cases hstep

/-- Witness for C1 at the integrated fixture variable x (stage 1
endogenous, stage 2 exogenous) over one problem key: the transition
produces the pending-stage-2 state whose exogenous store returns exactly
the stage-1 solved container of x. -/
theorem handOff_copies_witness :
    handOffTransition [xHandOff] [["s1"]] 1 demoState = some demoStateNext
    ∧ alookup demoStateNext.exo (2, "x", ["s1"])
        = alookup demoState.solved (1, "x", ["s1"]) := by
  have h := handOff_copies [xHandOff] [["s1"]] 1 demoState demoStateNext
    (by decide) (by decide) rfl
  exact ⟨rfl, (h.2.2 xHandOff (by simp) (by decide) ["s1"] (by simp)).1⟩

lemma findRole_some_mem (bs : List SetBinding) (role : DimRole) (ds : DimSpec)
    (h : findRole bs role = some ds) :
    ∃ b ∈ bs, b.dim = role ∧ ds = ⟨b.set, b.filters⟩ := by
  induction bs with
  | nil =>
      rw [findRole] at h
      cases h
  | cons b rest ih =>
      rw [findRole] at h
      by_cases hb : b.dim = role
      · rw [if_pos hb] at h
        cases h
        exact ⟨b, List.mem_cons_self _ _, hb, rfl⟩
      · rw [if_neg hb] at h
        obtain ⟨b2, hb2, hd, hds⟩ := ih h
        exact ⟨b2, List.mem_cons_of_mem _ hb2, hd, hds⟩

lemma resolveDimSpec_findRole_ok (reg : List SetDecl) (bs : List SetBinding)
    (role : DimRole) (hres : ∀ b ∈ bs, findSet reg b.set ≠ none) :
    ∃ ms, resolveDimSpec reg (findRole bs role) = .ok ms := by
  cases hrole : findRole bs role with
  | none => exact ⟨[], rfl⟩
  | some ds =>
      obtain ⟨b, hb, _, rfl⟩ := findRole_some_mem bs role ds hrole
      cases hset : findSet reg b.set with
      | none => exact absurd hset (hres b hb)
      | some s =>
          refine ⟨filterMembers s b.filters, ?_⟩
          rw [resolveDimSpec]
          rw [hset]

/-- C10: the keyed rows/cols/intra schema form and the per-set dim schema
form resolve to the same ResolvedSubVariable — identical row member list,
column member list and intra-domain restriction — whenever every bound set
is registered. -/
theorem dimForm_keyed_agree (reg : List SetDecl) (bs : List SetBinding)
    (hres : ∀ b ∈ bs, findSet reg b.set ≠ none) :
    resolveDimForm reg bs = resolveKeyed reg (dimFormToKeyed bs) := by
  induction bs with
  | nil => rfl
  | cons b rest ih =>
      have hrest : ∀ b2 ∈ rest, findSet reg b2.set ≠ none :=
        fun b2 hb2 => hres b2 (List.mem_cons_of_mem _ hb2)
      obtain ⟨rs, hrs⟩ := resolveDimSpec_findRole_ok reg rest .rows hrest
      obtain ⟨cs, hcs⟩ := resolveDimSpec_findRole_ok reg rest .cols hrest
      obtain ⟨ims, hims⟩ := resolveDimSpec_findRole_ok reg rest .intra hrest
      cases hset : findSet reg b.set with
      | none => exact absurd hset (hres b (List.mem_cons_self _ _))
      | some s =>
          have hrestkeyed : resolveKeyed reg (dimFormToKeyed rest) = .ok ⟨rs, cs, ims⟩ := by
            rw [resolveKeyed, dimFormToKeyed]
            rw [show (⟨findRole rest .rows, findRole rest .cols,
              findRole rest .intra⟩ : SubVarKeyed).rows = findRole rest .rows from rfl]
            rw [hrs, hcs, hims]
            rfl
          have hform : resolveDimForm reg rest = .ok ⟨rs, cs, ims⟩ :=
            (ih hrest).trans hrestkeyed
          have hds : resolveDimSpec reg (some ⟨b.set, b.filters⟩)
              = .ok (filterMembers s b.filters) := by
            simp [resolveDimSpec, hset]
          cases hb : b.dim with
          | rows =>
              have hkc : dimFormToKeyed (b :: rest)
                  = ⟨some ⟨b.set, b.filters⟩, findRole rest .cols,
                     findRole rest .intra⟩ := by
                simp [dimFormToKeyed, findRole, hb]
              rw [resolveDimForm, hform, hkc, resolveKeyed, hds, hcs, hims]
              simp only [hset, hb]
              rfl
          | cols =>
              have hkc : dimFormToKeyed (b :: rest)
                  = ⟨findRole rest .rows, some ⟨b.set, b.filters⟩,
                     findRole rest .intra⟩ := by
                simp [dimFormToKeyed, findRole, hb]
              rw [resolveDimForm, hform, hkc, resolveKeyed, hds, hrs, hims]
              simp only [hset, hb]
              rfl
          | intra =>
              have hkc : dimFormToKeyed (b :: rest)
                  = ⟨findRole rest .rows, findRole rest .cols,
                     some ⟨b.set, b.filters⟩⟩ := by
                simp [dimFormToKeyed, findRole, hb]
              rw [resolveDimForm, hform, hkc, resolveKeyed, hds, hrs, hcs]
              simp only [hset, hb]
              rfl

/-- Witness for C10 at the X_max_pub_strike fixture pair: the shipped
per-set dim form translates to the shipped keyed form, and both resolve to
the same row and column member lists over the sample registry. -/
theorem dimForm_keyed_agree_witness :
    dimFormToKeyed xMaxDimForm = xMaxKeyed
    ∧ resolveDimForm sampleReg xMaxDimForm = resolveKeyed sampleReg xMaxKeyed := by
  have h := dimForm_keyed_agree sampleReg xMaxDimForm (by decide)
  exact ⟨rfl, h⟩

end PyESM
